import Mathlib

/-!
Shallow embedding of the contact-directory program (`main.py`).

Dates are modelled as proleptic-Gregorian (year, month, day) triples with
CPython's ordinal arithmetic (`date.toordinal`, `date.weekday`); Python
strings are Lean `String`s, inspected through their character lists.
Python exceptions are modelled with `Except`/`Option`; mutating methods on
`Record` return the state of the object at the moment the method returns
or raises, paired with the raised message (if any), following the source's
statement order, so that partial mutation would be visible in the model.
CPython caps years at 9999 (`date` constructor and `replace` check this);
pure date successor arithmetic is modelled without the cap, which only
diverges from Python at the 9999-12-31 overflow point.
-/

/-- Proleptic Gregorian calendar date, as CPython's `datetime.date`:
a (year, month, day) triple. -/
structure PyDate where
  year : Nat
  month : Nat
  day : Nat
deriving DecidableEq

/-- CPython `_is_leap`: `year % 4 == 0 and (year % 100 != 0 or year % 400 == 0)`. -/
def isLeap (y : Nat) : Bool :=
  y % 4 == 0 && (y % 100 != 0 || y % 400 == 0)

/-- CPython `_days_in_month` (0 outside months 1..12, where CPython would
be an index error — never reached on valid dates). -/
def daysInMonth (y : Nat) (m : Nat) : Nat :=
  if m = 2 then (if isLeap y then 29 else 28)
  else if m = 4 ∨ m = 6 ∨ m = 9 ∨ m = 11 then 30
  else if 1 ≤ m ∧ m ≤ 12 then 31
  else 0

/-- CPython's `_DAYS_BEFORE_MONTH` table (0 outside 1..12). -/
def daysBeforeMonthTab : Nat → Nat
  | 1 => 0 | 2 => 31 | 3 => 59 | 4 => 90 | 5 => 120 | 6 => 151
  | 7 => 181 | 8 => 212 | 9 => 243 | 10 => 273 | 11 => 304 | 12 => 334
  | _ => 0

/-- CPython `_days_before_month`:
`_DAYS_BEFORE_MONTH[month] + (month > 2 and _is_leap(year))`. -/
def daysBeforeMonth (y m : Nat) : Nat :=
  daysBeforeMonthTab m + (if 2 < m ∧ isLeap y = true then 1 else 0)

/-- Length of year `y`: 366 in leap years, 365 otherwise. -/
def daysInYear (y : Nat) : Nat := if isLeap y then 366 else 365

/-- CPython `_days_before_year`: days before January 1st of year `y`. -/
def daysBeforeYear (y : Nat) : Nat :=
  365 * (y - 1) + (y - 1) / 4 - (y - 1) / 100 + (y - 1) / 400

/-- CPython `date.toordinal`: 0001-01-01 is ordinal 1. -/
def toOrdinal (d : PyDate) : Nat :=
  daysBeforeYear d.year + daysBeforeMonth d.year d.month + d.day

/-- CPython `date.weekday`: `(toordinal() + 6) % 7`, Monday = 0 .. Sunday = 6. -/
def pyWeekday (d : PyDate) : Nat := (toOrdinal d + 6) % 7

/-- CPython `date.__lt__`: lexicographic comparison of (year, month, day). -/
def pyDateLt (a b : PyDate) : Bool :=
  decide (a.year < b.year ∨ (a.year = b.year ∧
    (a.month < b.month ∨ (a.month = b.month ∧ a.day < b.day))))

/-- CPython `date.__new__` validity check (`_check_date_fields`):
year in 1..9999, month in 1..12, day in 1..days_in_month. -/
def dateOK (y m d : Nat) : Bool :=
  decide (1 ≤ y ∧ y ≤ 9999 ∧ 1 ≤ m ∧ m ≤ 12 ∧ 1 ≤ d ∧ d ≤ daysInMonth y m)

/-- Structural validity of a date triple, without CPython's year-9999 cap
(used for the pure calendar-arithmetic lemmas). -/
def validYMD (d : PyDate) : Prop :=
  1 ≤ d.year ∧ 1 ≤ d.month ∧ d.month ≤ 12 ∧ 1 ≤ d.day ∧
    d.day ≤ daysInMonth d.year d.month

instance (d : PyDate) : Decidable (validYMD d) := by
  unfold validYMD; infer_instance

/-- `date.replace(year=y)`: rebuild the date with the same month/day and the
given year, re-running the constructor's validity check; raises `ValueError`
(here: `.error`) when the resulting triple is not a real date (e.g. Feb 29
projected onto a non-leap year). -/
def dateReplaceYear (d : PyDate) (y : Nat) : Except String PyDate :=
  if dateOK y d.month d.day then .ok ⟨y, d.month, d.day⟩
  else .error "day is out of range for month"

/-- Calendar successor of a date (total; diverges from CPython only past
9999-12-31 where Python raises OverflowError). -/
def nextDay (d : PyDate) : PyDate :=
  if d.day < daysInMonth d.year d.month then ⟨d.year, d.month, d.day + 1⟩
  else if d.month < 12 then ⟨d.year, d.month + 1, 1⟩
  else ⟨d.year + 1, 1, 1⟩

/-- `d + timedelta(days=n)` for `n ≥ 0`, as `n`-fold calendar successor. -/
def addDays (d : PyDate) (n : Nat) : PyDate := nextDay^[n] d

/-- `find_next_weekday(start_date, weekday)` from `main.py`:
```
days_ahead = weekday - start_date.weekday()
if days_ahead <= 0: days_ahead += 7
return start_date + timedelta(days=days_ahead)
``` -/
def find_next_weekday (start_date : PyDate) (weekday : Int) : PyDate :=
  let days_ahead : Int := weekday - (pyWeekday start_date : Int)
  let days_ahead : Int := if days_ahead ≤ 0 then days_ahead + 7 else days_ahead
  addDays start_date days_ahead.toNat

/-- `adjust_for_weekend(birthday)` from `main.py`: shift Saturday/Sunday
(weekday ≥ 5) to the next Monday via `find_next_weekday(birthday, 0)`. -/
def adjust_for_weekend (birthday : PyDate) : PyDate :=
  if 5 ≤ pyWeekday birthday then find_next_weekday birthday 0 else birthday

/-- Numeric value of a list of decimal digit characters (most significant
first), as Python `int()` of the matched group. -/
def digitsVal (cs : List Char) : Nat :=
  cs.foldl (fun a c => 10 * a + (c.toNat - 48)) 0

/-- One numeric field of CPython `_strptime`'s regex: a run of `minLen` to
`maxLen` decimal digits whose value lies in `lo..hi` (`%d` is
`3[01]|[12]\d|0[1-9]|[1-9]`, i.e. 1-2 digits valuing 1..31; `%m` likewise
1..12; `%Y` is `\d\d\d\d`, exactly 4 digits). -/
def numField (cs : List Char) (minLen maxLen lo hi : Nat) : Option Nat :=
  if minLen ≤ cs.length ∧ cs.length ≤ maxLen ∧ cs.all Char.isDigit = true
      ∧ lo ≤ digitsVal cs ∧ digitsVal cs ≤ hi
  then some (digitsVal cs) else none

/-- `datetime.strptime(s, '%d.%m.%Y').date()`: the format's literal dots
force the unique decomposition of `s` at its dot characters (the three
digit fields cannot contain a dot), the whole string must be consumed, and
the parsed triple must pass the `date` constructor check. -/
def strptimeDmY (s : String) : Option PyDate :=
  match s.data.splitOn '.' with
  | [ds, ms, ys] =>
    match numField ds 1 2 1 31, numField ms 1 2 1 12, numField ys 4 4 0 9999 with
    | some d, some m, some y => if dateOK y m d then some ⟨y, m, d⟩ else none
    | _, _, _ => none
  | _ => none

/-- Two-digit zero-padded decimal rendering (strftime `%d`, `%m`). -/
def pad2 (n : Nat) : String := if n < 10 then "0" ++ toString n else toString n

/-- Four-digit zero-padded decimal rendering (strftime `%Y`). -/
def pad4 (n : Nat) : String :=
  if n < 10 then "000" ++ toString n
  else if n < 100 then "00" ++ toString n
  else if n < 1000 then "0" ++ toString n
  else toString n

/-- `d.strftime('%d.%m.%Y')`. -/
def pyStrftimeDMY (d : PyDate) : String :=
  pad2 d.day ++ "." ++ pad2 d.month ++ "." ++ pad4 d.year

/-- `Phone` field: wraps the validated 10-digit string. -/
structure Phone where
  value : String
deriving DecidableEq

/-- Python `str.isdigit`: non-empty and every character a digit
(modelled over ASCII decimal digits). -/
def pyIsdigit (s : String) : Bool :=
  !s.data.isEmpty && s.data.all Char.isDigit

/-- `Phone.__init__`: `if value.isdigit() and len(value) == 10` store the
string, else raise `ValueError("Phone must be 10 digits.")`. -/
def Phone.init (value : String) : Except String Phone :=
  if pyIsdigit value = true ∧ value.length = 10 then .ok ⟨value⟩
  else .error "Phone must be 10 digits."

/-- `Birthday` field: wraps the original string (the source stores the raw
string, not the parsed date). -/
structure Birthday where
  value : String
deriving DecidableEq

/-- `Birthday.__init__`: `datetime.strptime(value, '%d.%m.%Y')` must
succeed, then the original string is stored; on parse failure raise
`ValueError("Invalid date format. Use DD.MM.YYYY.")`. -/
def Birthday.init (value : String) : Except String Birthday :=
  match strptimeDmY value with
  | some _ => .ok ⟨value⟩
  | none => .error "Invalid date format. Use DD.MM.YYYY."

/-- `Record`: name, ordered phone list, optional birthday. -/
structure Record where
  name : String
  phones : List Phone
  birthday : Option Birthday
deriving DecidableEq

/-- `Record.__init__(name)`. -/
def Record.init (name : String) : Record := ⟨name, [], none⟩

/-- `Record.find_phone`: linear scan, first phone whose value equals the
argument, else `None`. -/
def Record.find_phone (r : Record) (phone_number : String) : Option Phone :=
  r.phones.find? (fun p => p.value == phone_number)

/-- `Record.add_phone`: construct `Phone(phone_number)` (which may raise,
before any mutation), then append. Result: state at return/raise time,
paired with the raised message if any. -/
def Record.add_phone (r : Record) (phone_number : String) : Record × Option String :=
  match Phone.init phone_number with
  | .error e => (r, some e)
  | .ok p => ({ r with phones := r.phones ++ [p] }, none)

/-- `Record.remove_phone`: `find_phone` then `list.remove`; when no phone
matches, `find_phone` yields `None` and `list.remove(None)` raises
`ValueError` with the list untouched; otherwise the first phone with the
given value is removed. -/
def Record.remove_phone (r : Record) (phone_number : String) : Record × Option String :=
  match r.find_phone phone_number with
  | some _ =>
    ({ r with phones := r.phones.eraseP (fun p => p.value == phone_number) }, none)
  | none => (r, some "list.remove(x): x not in list")

/-- `Record.edit_phone`: if `old_number` is present, `add_phone new_number`
(possibly raising before mutation) then `remove_phone old_number`;
otherwise raise `ValueError(f"Phone number {old} not found.")`. -/
def Record.edit_phone (r : Record) (old_number new_number : String) : Record × Option String :=
  match r.find_phone old_number with
  | some _ =>
    match r.add_phone new_number with
    | (r1, some e) => (r1, some e)
    | (r1, none) => r1.remove_phone old_number
  | none => (r, some ("Phone number " ++ old_number ++ " not found."))

/-- `Record.add_birthday`: construct `Birthday(new_birthday)` (which may
raise, before any mutation), then overwrite the birthday slot. -/
def Record.add_birthday (r : Record) (new_birthday : String) : Record × Option String :=
  match Birthday.init new_birthday with
  | .error e => (r, some e)
  | .ok b => ({ r with birthday := some b }, none)

/-- `AddressBook`: insertion-ordered mapping name → record, as a Python
dict (`UserDict.data`). -/
structure AddressBook where
  data : List (String × Record)
deriving DecidableEq

/-- Python dict assignment `data[k] = v`: overwrite in place when the key
exists (keeping its position), else append at the end. -/
def dictSet (l : List (String × Record)) (k : String) (v : Record) : List (String × Record) :=
  if l.any (fun kv => kv.1 == k) then
    l.map (fun kv => if kv.1 == k then (k, v) else kv)
  else l ++ [(k, v)]

/-- `AddressBook.add_record`: `self.data[record.name.value] = record`. -/
def AddressBook.add_record (book : AddressBook) (record : Record) : AddressBook :=
  ⟨dictSet book.data record.name record⟩

/-- `AddressBook.find`: `self.data.get(name)`. -/
def AddressBook.find (book : AddressBook) (name : String) : Option Record :=
  (book.data.find? (fun kv => kv.1 == name)).map Prod.snd

/-- `AddressBook.delete`: `if name in self.data: del self.data[name]`. -/
def AddressBook.delete (book : AddressBook) (name : String) : AddressBook :=
  if book.data.any (fun kv => kv.1 == name) then
    ⟨book.data.filter (fun kv => kv.1 != name)⟩
  else book

/-- One upcoming-birthday report entry:
`{"name": ..., "congratulation_date": ...}`. -/
structure UpEntry where
  name : String
  congratulation_date : String
deriving DecidableEq

/-- The body of `get_upcoming_birthdays`'s loop for one record: skip
records without a birthday; re-parse the stored birthday string; project
onto this year (possibly raising), re-project onto next year when already
past (possibly raising); emit an entry when the day distance lies in
`0..days`. -/
def processRecord (today : PyDate) (days : Int) (r : Record) : Except String (Option UpEntry) :=
  match r.birthday with
  | none => .ok none
  | some b =>
    match strptimeDmY b.value with
    | none => .error "time data does not match format"
    | some birthday_date =>
      match dateReplaceYear birthday_date today.year with
      | .error e => .error e
      | .ok d1 =>
        match (if pyDateLt d1 today then dateReplaceYear birthday_date (today.year + 1)
               else .ok d1) with
        | .error e => .error e
        | .ok birthday_this_year =>
          let days_until : Int :=
            (toOrdinal birthday_this_year : Int) - (toOrdinal today : Int)
          if 0 ≤ days_until ∧ days_until ≤ days then
            .ok (some ⟨r.name, pyStrftimeDMY (adjust_for_weekend birthday_this_year)⟩)
          else .ok none

/-- The `for record in self.data.values()` loop of `get_upcoming_birthdays`:
an exception at any record aborts the whole call. -/
def upcomingLoop (today : PyDate) (days : Int) : List (String × Record) → Except String (List UpEntry)
  | [] => .ok []
  | kv :: rest =>
    match processRecord today days kv.2 with
    | .error e => .error e
    | .ok none => upcomingLoop today days rest
    | .ok (some entry) => (upcomingLoop today days rest).map (fun es => entry :: es)

/-- `AddressBook.get_upcoming_birthdays(days=7)`; `today` (Python's
`date.today()`) is an explicit parameter of the model. -/
def AddressBook.get_upcoming_birthdays (book : AddressBook) (today : PyDate) (days : Int) :
    Except String (List UpEntry) :=
  upcomingLoop today days book.data

/-- Modelled from the spec (§4.4 step 1): "take the birthday's month/day,
project onto a year" — the raw triple, with no validity concern. -/
def specProject (bd : PyDate) (y : Nat) : PyDate := ⟨y, bd.month, bd.day⟩

/-- Modelled from the spec (§4.4): the per-record upcoming-birthday
algorithm as the spec words it — `thisYearDate` is the birthday projected
onto today's year, re-projected onto next year when already past;
`daysUntil = thisYearDate - today`; include iff `0 ≤ daysUntil ≤ days`;
entry carries the name and the weekend-adjusted date formatted DD.MM.YYYY. -/
def specUpcoming (today : PyDate) (days : Int) (r : Record) : Option UpEntry :=
  match r.birthday with
  | none => none
  | some b =>
    match strptimeDmY b.value with
    | none => none
    | some bd =>
      let t1 := specProject bd today.year
      let thisYearDate := if pyDateLt t1 today then specProject bd (today.year + 1) else t1
      let daysUntil : Int := (toOrdinal thisYearDate : Int) - (toOrdinal today : Int)
      if 0 ≤ daysUntil ∧ daysUntil ≤ days then
        some ⟨r.name, pyStrftimeDMY (adjust_for_weekend thisYearDate)⟩
      else none

theorem daysBeforeMonth_succ (y m : Nat) (h1 : 1 ≤ m) (hm : m ≤ 11) :
    daysBeforeMonth y (m + 1) = daysBeforeMonth y m + daysInMonth y m := by
  by_cases h : isLeap y = true <;>
    interval_cases m <;>
    simp [daysBeforeMonth, daysBeforeMonthTab, daysInMonth, h]

set_option maxHeartbeats 1000000 in
theorem daysBeforeMonth_add_daysInMonth_le (y m : Nat) (h1 : 1 ≤ m) (hm : m ≤ 12) :
    daysBeforeMonth y m + daysInMonth y m ≤ daysInYear y := by
  by_cases h : isLeap y = true <;>
    interval_cases m <;>
    simp [daysBeforeMonth, daysBeforeMonthTab, daysInMonth, daysInYear, h]

set_option maxHeartbeats 1600000 in
theorem daysBeforeYear_succ (y : Nat) (hy : 1 ≤ y) :
    daysBeforeYear (y + 1) = daysBeforeYear y + daysInYear y := by
  by_cases h : isLeap y = true
  · rw [daysInYear, if_pos h]
    simp only [isLeap, Bool.and_eq_true, beq_iff_eq, Bool.or_eq_true, bne_iff_ne, ne_eq] at h
    unfold daysBeforeYear
    omega
  · rw [daysInYear, if_neg h]
    simp only [isLeap, Bool.and_eq_true, beq_iff_eq, Bool.or_eq_true, bne_iff_ne, ne_eq] at h
    unfold daysBeforeYear
    omega

theorem daysBeforeMonth_mono (y : Nat) {a b : Nat} (h1 : 1 ≤ a) (h : a ≤ b)
    (hb : b ≤ 12) : daysBeforeMonth y a ≤ daysBeforeMonth y b := by
  induction b with
  | zero => omega
  | succ n ih =>
    rcases Nat.eq_or_lt_of_le h with rfl | hlt
    · exact Nat.le_refl _
    · have hs := daysBeforeMonth_succ y n (by omega) (by omega)
      have := ih (by omega) (by omega)
      omega

theorem daysBeforeYear_mono {a b : Nat} (h1 : 1 ≤ a) (h : a ≤ b) :
    daysBeforeYear a ≤ daysBeforeYear b := by
  induction b with
  | zero => omega
  | succ n ih =>
    rcases Nat.eq_or_lt_of_le h with rfl | hlt
    · exact Nat.le_refl _
    · have hs := daysBeforeYear_succ n (by omega)
      have := ih (by omega)
      omega

/-- Modelled from the spec (§4.2, amended): the set of strings accepted by
`strptime('%d.%m.%Y')`, stated as the spec would word it — a day part of 1-2
digits valuing 1..31, a month part of 1-2 digits valuing 1..12, a year part
of exactly 4 digits, joined by literal dots, such that the triple is a real
calendar date with year at least 1. -/
def specBirthdayAccepts (s : String) : Prop :=
  ∃ ds ms ys : List Char,
    s.data = ds ++ '.' :: (ms ++ '.' :: ys) ∧
    (∀ c ∈ ds, c.isDigit = true) ∧ 1 ≤ ds.length ∧ ds.length ≤ 2 ∧
    (∀ c ∈ ms, c.isDigit = true) ∧ 1 ≤ ms.length ∧ ms.length ≤ 2 ∧
    (∀ c ∈ ys, c.isDigit = true) ∧ ys.length = 4 ∧
    1 ≤ digitsVal ds ∧ digitsVal ds ≤ 31 ∧
    1 ≤ digitsVal ms ∧ digitsVal ms ≤ 12 ∧
    1 ≤ digitsVal ys ∧
    digitsVal ds ≤ daysInMonth (digitsVal ys) (digitsVal ms)

theorem daysInMonth_pos (y m : Nat) (h1 : 1 ≤ m) (hm : m ≤ 12) :
    1 ≤ daysInMonth y m := by
  by_cases h : isLeap y = true <;>
    interval_cases m <;>
    simp [daysInMonth, h]

theorem nextDay_spec (d : PyDate) (h : validYMD d) :
    toOrdinal (nextDay d) = toOrdinal d + 1 ∧ validYMD (nextDay d) := by
  obtain ⟨y, m, day⟩ := d
  obtain ⟨hy, hm1, hm2, hd1, hd2⟩ := h
  simp only at hy hm1 hm2 hd1 hd2
  by_cases h1 : day < daysInMonth y m
  · have he : nextDay ⟨y, m, day⟩ = ⟨y, m, day + 1⟩ := by
      simp only [nextDay]
      rw [if_pos (by simpa using h1)]
    rw [he]
    constructor
    · simp only [toOrdinal]
      omega
    · simp only [validYMD]
      exact ⟨hy, hm1, hm2, by omega, by omega⟩
  · by_cases h2 : m < 12
    · have he : nextDay ⟨y, m, day⟩ = ⟨y, m + 1, 1⟩ := by
        simp only [nextDay]
        rw [if_neg (by simpa using h1), if_pos (by simpa using h2)]
      rw [he]
      have hs := daysBeforeMonth_succ y m hm1 (by omega)
      have hp := daysInMonth_pos y (m + 1) (by omega) (by omega)
      constructor
      · simp only [toOrdinal]
        omega
      · simp only [validYMD]
        exact ⟨hy, by omega, by omega, by omega, by omega⟩
    · have hm12 : m = 12 := by omega
      subst hm12
      have h31 : daysInMonth y 12 = 31 := by simp [daysInMonth]
      have hday : day = 31 := by omega
      subst hday
      have he : nextDay ⟨y, 12, 31⟩ = ⟨y + 1, 1, 1⟩ := by
        simp only [nextDay]
        rw [if_neg (by simpa using h1), if_neg (by simp)]
      rw [he]
      have hys := daysBeforeYear_succ y hy
      have hp1 : daysInMonth (y + 1) 1 = 31 := by simp [daysInMonth]
      constructor
      · simp only [toOrdinal]
        simp only [daysBeforeMonth, daysBeforeMonthTab]
        rw [daysInYear] at hys
        by_cases hl : isLeap y = true
        · rw [if_pos hl] at hys
          simp only [hl]
          norm_num
          omega
        · rw [if_neg hl] at hys
          simp only [hl]
          norm_num
          omega
      · simp only [validYMD]
        exact ⟨by omega, by omega, by omega, by omega, by omega⟩

theorem addDays_spec (d : PyDate) (h : validYMD d) (n : Nat) :
    toOrdinal (addDays d n) = toOrdinal d + n ∧ validYMD (addDays d n) := by
  induction n with
  | zero => exact ⟨rfl, h⟩
  | succ k ih =>
    have hstep : addDays d (k + 1) = nextDay (addDays d k) := by
      simp [addDays, Function.iterate_succ_apply']
    obtain ⟨h1, h2⟩ := ih
    obtain ⟨h3, h4⟩ := nextDay_spec _ h2
    rw [hstep]
    exact ⟨by omega, h4⟩

theorem toOrdinal_le_year_succ (d : PyDate) (h : validYMD d) :
    toOrdinal d ≤ daysBeforeYear (d.year + 1) := by
  obtain ⟨y, m, day⟩ := d
  obtain ⟨hy, hm1, hm2, hd1, hd2⟩ := h
  simp only at hy hm1 hm2 hd1 hd2
  have h1 := daysBeforeMonth_add_daysInMonth_le y m hm1 hm2
  have h2 := daysBeforeYear_succ y hy
  simp only [toOrdinal]
  omega

theorem toOrdinal_lt_of_pyDateLt (a b : PyDate) (ha : validYMD a) (hb : validYMD b)
    (h : pyDateLt a b = true) : toOrdinal a < toOrdinal b := by
  obtain ⟨ya, ma, da⟩ := a
  obtain ⟨yb, mb, db⟩ := b
  obtain ⟨hy1, hm1, hm2, hd1, hd2⟩ := ha
  obtain ⟨hy1', hm1', hm2', hd1', hd2'⟩ := hb
  simp only at hy1 hm1 hm2 hd1 hd2 hy1' hm1' hm2' hd1' hd2'
  simp only [pyDateLt, decide_eq_true_eq] at h
  simp only [toOrdinal]
  rcases h with h | ⟨rfl, h⟩
  · have hu : daysBeforeYear ya + daysBeforeMonth ya ma + da ≤ daysBeforeYear (ya + 1) := by
      have := toOrdinal_le_year_succ ⟨ya, ma, da⟩ ⟨hy1, hm1, hm2, hd1, hd2⟩
      simpa [toOrdinal] using this
    have hmono := @daysBeforeYear_mono (ya + 1) yb (by omega) (by omega)
    omega
  · rcases h with h | ⟨rfl, h⟩
    · have hs := daysBeforeMonth_succ ya ma hm1 (by omega)
      have hmono := @daysBeforeMonth_mono ya (ma + 1) mb (by omega) (by omega) (by omega)
      omega
    · omega

theorem pyDateLt_iff_toOrdinal (a b : PyDate) (ha : validYMD a) (hb : validYMD b) :
    pyDateLt a b = true ↔ toOrdinal a < toOrdinal b := by
  constructor
  · exact toOrdinal_lt_of_pyDateLt a b ha hb
  · intro h
    by_contra hlt
    have htri : pyDateLt b a = true ∨ a = b := by
      obtain ⟨ya, ma, da⟩ := a
      obtain ⟨yb, mb, db⟩ := b
      simp only [pyDateLt, decide_eq_true_eq, PyDate.mk.injEq] at hlt ⊢
      omega
    rcases htri with h2 | rfl
    · have := toOrdinal_lt_of_pyDateLt b a hb ha h2
      omega
    · omega

theorem pyWeekday_lt (d : PyDate) : pyWeekday d < 7 :=
  Nat.mod_lt _ (by norm_num)

theorem find_next_weekday_eq (d : PyDate) (t : Int) :
    find_next_weekday d t =
      addDays d (if t - (pyWeekday d : Int) ≤ 0 then t - (pyWeekday d : Int) + 7
                 else t - (pyWeekday d : Int)).toNat := rfl

/-- Claim C8: for every date `from` and target weekday `t` in 0..6,
`find_next_weekday(from, t)` returns the smallest date strictly after
`from` whose weekday equals `t`; in particular, when `from`'s weekday
already equals `t`, the result is exactly `from` plus 7 days, and the
result never equals `from` itself. ("Strictly after" is Python's date
order `pyDateLt`; minimality says no strictly intermediate valid date has
weekday `t`.) -/
theorem find_next_weekday_spec (d : PyDate) (t : Int) (hv : validYMD d)
    (h0 : 0 ≤ t) (h6 : t ≤ 6) :
    validYMD (find_next_weekday d t) ∧
    pyDateLt d (find_next_weekday d t) = true ∧
    find_next_weekday d t ≠ d ∧
    (pyWeekday (find_next_weekday d t) : Int) = t ∧
    (∀ e : PyDate, validYMD e → pyDateLt d e = true →
      pyDateLt e (find_next_weekday d t) = true → (pyWeekday e : Int) ≠ t) ∧
    ((pyWeekday d : Int) = t → toOrdinal (find_next_weekday d t) = toOrdinal d + 7) := by
  have hw7 : pyWeekday d < 7 := pyWeekday_lt d
  have hwd : pyWeekday d = (toOrdinal d + 6) % 7 := rfl
  set kI : Int := if t - (pyWeekday d : Int) ≤ 0 then t - (pyWeekday d : Int) + 7
                  else t - (pyWeekday d : Int) with hk
  have hres : find_next_weekday d t = addDays d kI.toNat := find_next_weekday_eq d t
  have hk17 : 1 ≤ kI ∧ kI ≤ 7 := by rw [hk]; split <;> omega
  have hkt : (pyWeekday d + kI) % 7 = t := by rw [hk]; split <;> omega
  have hkn : (kI.toNat : Int) = kI := Int.toNat_of_nonneg (by omega)
  obtain ⟨hord, hval⟩ := addDays_spec d hv kI.toNat
  have hlt : toOrdinal d < toOrdinal (find_next_weekday d t) := by
    rw [hres, hord]; omega
  refine ⟨by rw [hres]; exact hval, ?_, ?_, ?_, ?_, ?_⟩
  · exact (pyDateLt_iff_toOrdinal d _ hv (hres ▸ hval)).mpr hlt
  · intro heq
    rw [heq] at hlt
    omega
  · have : pyWeekday (find_next_weekday d t) =
        (toOrdinal (find_next_weekday d t) + 6) % 7 := rfl
    rw [this, hres, hord]
    omega
  · intro e he hde her
    have h1 := toOrdinal_lt_of_pyDateLt d e hv he hde
    have h2 := toOrdinal_lt_of_pyDateLt e _ he (hres ▸ hval) her
    rw [hres, hord] at h2
    have hwe : pyWeekday e = (toOrdinal e + 6) % 7 := rfl
    omega
  · intro ht
    rw [hres, hord]
    omega

theorem adjust_for_weekend_cases (d : PyDate) (hv : validYMD d) :
    (pyWeekday d = 5 → adjust_for_weekend d = addDays d 2 ∧ pyWeekday (adjust_for_weekend d) = 0) ∧
    (pyWeekday d = 6 → adjust_for_weekend d = addDays d 1 ∧ pyWeekday (adjust_for_weekend d) = 0) ∧
    (pyWeekday d ≤ 4 → adjust_for_weekend d = d) := by
  have hwd : pyWeekday d = (toOrdinal d + 6) % 7 := rfl
  refine ⟨?_, ?_, ?_⟩
  · intro h5
    have ha : adjust_for_weekend d = find_next_weekday d 0 := by
      rw [adjust_for_weekend, if_pos (by omega)]
    have he : find_next_weekday d 0 = addDays d 2 := by
      rw [find_next_weekday_eq, h5]
      rfl
    obtain ⟨hord, _⟩ := addDays_spec d hv 2
    have hwd2 : pyWeekday (addDays d 2) = (toOrdinal (addDays d 2) + 6) % 7 := rfl
    refine ⟨by rw [ha, he], ?_⟩
    rw [ha, he, hwd2, hord]
    omega
  · intro h6
    have ha : adjust_for_weekend d = find_next_weekday d 0 := by
      rw [adjust_for_weekend, if_pos (by omega)]
    have he : find_next_weekday d 0 = addDays d 1 := by
      rw [find_next_weekday_eq, h6]
      rfl
    obtain ⟨hord, _⟩ := addDays_spec d hv 1
    have hwd2 : pyWeekday (addDays d 1) = (toOrdinal (addDays d 1) + 6) % 7 := rfl
    refine ⟨by rw [ha, he], ?_⟩
    rw [ha, he, hwd2, hord]
    omega
  · intro h4
    rw [adjust_for_weekend, if_neg (by omega)]

theorem dateReplaceYear_ok (d : PyDate) (y : Nat) (e : PyDate)
    (h : dateReplaceYear d y = .ok e) :
    e = ⟨y, d.month, d.day⟩ ∧ dateOK y d.month d.day = true := by
  unfold dateReplaceYear at h
  split at h
  · refine ⟨?_, by assumption⟩
    injection h with h
    exact h.symm
  · simp at h

theorem processRecord_ok (today : PyDate) (days : Int) (r : Record) (o : Option UpEntry)
    (h : processRecord today days r = .ok o) : o = specUpcoming today days r := by
  unfold processRecord at h
  cases hb : r.birthday with
  | none =>
    rw [hb] at h
    simp only [specUpcoming, hb]
    injection h with h
    exact h.symm
  | some b =>
    rw [hb] at h
    dsimp only at h
    cases hs : strptimeDmY b.value with
    | none => rw [hs] at h; simp at h
    | some bd =>
      rw [hs] at h
      dsimp only at h
      simp only [specUpcoming, hb, hs, specProject]
      cases h1 : dateReplaceYear bd today.year with
      | error e => rw [h1] at h; simp at h
      | ok d1 =>
        rw [h1] at h
        dsimp only at h
        obtain ⟨rfl, hok1⟩ := dateReplaceYear_ok bd today.year d1 h1
        by_cases hlt : pyDateLt ⟨today.year, bd.month, bd.day⟩ today = true
        · rw [if_pos hlt] at h
          rw [if_pos hlt]
          cases h2 : dateReplaceYear bd (today.year + 1) with
          | error e => rw [h2] at h; simp at h
          | ok d2 =>
            rw [h2] at h
            dsimp only at h
            obtain ⟨rfl, hok2⟩ := dateReplaceYear_ok bd (today.year + 1) d2 h2
            by_cases hdu : 0 ≤ (toOrdinal (⟨today.year + 1, bd.month, bd.day⟩ : PyDate) : Int) -
                (toOrdinal today : Int) ∧
                (toOrdinal (⟨today.year + 1, bd.month, bd.day⟩ : PyDate) : Int) -
                (toOrdinal today : Int) ≤ days
            · rw [if_pos hdu] at h
              rw [if_pos hdu]
              injection h with h
              exact h.symm
            · rw [if_neg hdu] at h
              rw [if_neg hdu]
              injection h with h
              exact h.symm
        · rw [if_neg hlt] at h
          dsimp only at h
          rw [if_neg hlt]
          by_cases hdu : 0 ≤ (toOrdinal (⟨today.year, bd.month, bd.day⟩ : PyDate) : Int) -
              (toOrdinal today : Int) ∧
              (toOrdinal (⟨today.year, bd.month, bd.day⟩ : PyDate) : Int) -
              (toOrdinal today : Int) ≤ days
          · rw [if_pos hdu] at h
            rw [if_pos hdu]
            injection h with h
            exact h.symm
          · rw [if_neg hdu] at h
            rw [if_neg hdu]
            injection h with h
            exact h.symm

theorem upcomingLoop_ok (today : PyDate) (days : Int) (l : List (String × Record))
    (es : List UpEntry) (h : upcomingLoop today days l = .ok es) :
    es = l.filterMap (fun kv => specUpcoming today days kv.2) := by
  induction l generalizing es with
  | nil =>
    simp only [upcomingLoop] at h
    injection h with h
    simp [← h]
  | cons kv rest ih =>
    rw [upcomingLoop] at h
    cases hp : processRecord today days kv.2 with
    | error e => rw [hp] at h; simp at h
    | ok oe =>
      rw [hp] at h
      have hspec := processRecord_ok today days kv.2 oe hp
      cases oe with
      | none =>
        simp only [List.filterMap_cons, ← hspec]
        exact ih es h
      | some entry =>
        cases hr : upcomingLoop today days rest with
        | error e => rw [hr] at h; simp [Except.map] at h
        | ok es2 =>
          rw [hr] at h
          simp only [Except.map] at h
          injection h with h
          simp only [List.filterMap_cons, ← hspec]
          rw [← h, ih es2 hr]

theorem char_isDigit_toNat (c : Char) (h : c.isDigit = true) :
    48 ≤ c.toNat ∧ c.toNat ≤ 57 := by
  simp only [Char.isDigit, Bool.and_eq_true, decide_eq_true_eq, ge_iff_le] at h
  obtain ⟨h1, h2⟩ := h
  simp only [UInt32.le_def, BitVec.le_def] at h1 h2
  exact ⟨h1, h2⟩

theorem digitsVal_foldl_lt (cs : List Char) (a : Nat)
    (h : ∀ c ∈ cs, c.isDigit = true) :
    cs.foldl (fun a c => 10 * a + (c.toNat - 48)) a < (a + 1) * 10 ^ cs.length := by
  induction cs generalizing a with
  | nil => simp
  | cons c cs ih =>
    have hc := char_isDigit_toNat c (h c (by simp))
    have h2 := ih (10 * a + (c.toNat - 48)) (fun x hx => h x (by simp [hx]))
    have hmono : (10 * a + (c.toNat - 48) + 1) * 10 ^ cs.length ≤
        (a + 1) * 10 ^ (c :: cs).length := by
      simp only [List.length_cons, pow_succ]
      have hle : 10 * a + (c.toNat - 48) + 1 ≤ (a + 1) * 10 := by omega
      calc (10 * a + (c.toNat - 48) + 1) * 10 ^ cs.length
          ≤ ((a + 1) * 10) * 10 ^ cs.length := Nat.mul_le_mul_right _ hle
        _ = (a + 1) * (10 ^ cs.length * 10) := by ring
    simp only [List.foldl_cons]
    exact lt_of_lt_of_le h2 hmono

theorem digitsVal_lt (cs : List Char) (h : ∀ c ∈ cs, c.isDigit = true) :
    digitsVal cs < 10 ^ cs.length := by
  have := digitsVal_foldl_lt cs 0 h
  simpa [digitsVal] using this

theorem intercalate_three (a b c : List Char) :
    List.intercalate ['.'] [a, b, c] = a ++ '.' :: (b ++ '.' :: c) := by
  simp [List.intercalate]

theorem numField_some (cs : List Char) (a b lo hi v : Nat)
    (h : numField cs a b lo hi = some v) :
    v = digitsVal cs ∧ a ≤ cs.length ∧ cs.length ≤ b ∧
    (∀ c ∈ cs, c.isDigit = true) ∧ lo ≤ digitsVal cs ∧ digitsVal cs ≤ hi := by
  unfold numField at h
  split at h
  · next hc =>
    obtain ⟨hc1, hc2, hc3, hc4, hc5⟩ := hc
    injection h with h
    exact ⟨h.symm, hc1, hc2, List.all_eq_true.mp hc3, hc4, hc5⟩
  · simp at h

theorem numField_of (cs : List Char) (a b lo hi : Nat)
    (h1 : a ≤ cs.length) (h2 : cs.length ≤ b) (h3 : ∀ c ∈ cs, c.isDigit = true)
    (h4 : lo ≤ digitsVal cs) (h5 : digitsVal cs ≤ hi) :
    numField cs a b lo hi = some (digitsVal cs) := by
  unfold numField
  exact if_pos ⟨h1, h2, List.all_eq_true.mpr h3, h4, h5⟩

theorem strptimeDmY_some_iff (s : String) :
    (∃ d, strptimeDmY s = some d) ↔ specBirthdayAccepts s := by
  constructor
  · rintro ⟨d, hd⟩
    unfold strptimeDmY at hd
    split at hd
    · next ds ms ys heq =>
      split at hd
      · next dv mv yv heq1 heq2 heq3 =>
        obtain ⟨hdv, hd1, hd2, hd3, hd4, hd5⟩ := numField_some _ _ _ _ _ _ heq1
        obtain ⟨hmv, hm1, hm2, hm3, hm4, hm5⟩ := numField_some _ _ _ _ _ _ heq2
        obtain ⟨hyv, hy1, hy2, hy3, hy4, hy5⟩ := numField_some _ _ _ _ _ _ heq3
        split at hd
        · next hok =>
          simp only [dateOK, decide_eq_true_eq] at hok
          subst hdv hmv hyv
          refine ⟨ds, ms, ys, ?_, hd3, hd1, hd2, hm3, hm1, hm2, hy3, by omega,
            hd4, hd5, hm4, hm5, by omega, by omega⟩
          have hi : List.intercalate ['.'] (s.data.splitOn '.') = s.data :=
            List.intercalate_splitOn s.data '.'
          rw [heq, intercalate_three] at hi
          exact hi.symm
        · simp at hd
      · simp at hd
    · simp at hd
  · rintro ⟨ds, ms, ys, hdata, hds, hdl1, hdl2, hms, hml1, hml2, hys, hyl,
      hdv1, hdv2, hmv1, hmv2, hyv1, hdim⟩
    have hnodot : ∀ l ∈ [ds, ms, ys], '.' ∉ l := by
      intro l hl hc
      have hdig : ('.' : Char).isDigit = true := by
        simp only [List.mem_cons, List.not_mem_nil, or_false] at hl
        rcases hl with rfl | rfl | rfl
        · exact hds _ hc
        · exact hms _ hc
        · exact hys _ hc
      simp at hdig
    have hsp : s.data.splitOn '.' = [ds, ms, ys] := by
      have h1 : s.data = List.intercalate ['.'] [ds, ms, ys] := by
        rw [intercalate_three]; exact hdata
      rw [h1]
      exact List.splitOn_intercalate [ds, ms, ys] '.' hnodot (by simp)
    have hy9999 : digitsVal ys ≤ 9999 := by
      have := digitsVal_lt ys hys
      rw [hyl] at this
      omega
    refine ⟨⟨digitsVal ys, digitsVal ms, digitsVal ds⟩, ?_⟩
    unfold strptimeDmY
    rw [hsp]
    dsimp only
    rw [numField_of ds 1 2 1 31 hdl1 hdl2 hds hdv1 hdv2,
      numField_of ms 1 2 1 12 hml1 hml2 hms hmv1 hmv2,
      numField_of ys 4 4 0 9999 (by omega) (by omega) hys (by omega) hy9999]
    have hok : dateOK (digitsVal ys) (digitsVal ms) (digitsVal ds) = true := by
      simp only [dateOK, decide_eq_true_eq]
      exact ⟨hyv1, hy9999, hmv1, hmv2, hdv1, hdim⟩
    dsimp only
    rw [if_pos hok]

theorem string_length_data (s : String) : s.length = s.data.length := rfl

theorem find?_first_of_split {α : Type} (p : α → Bool) (l1 l2 : List α) (a : α)
    (h1 : ∀ x ∈ l1, p x = false) (ha : p a = true) :
    (l1 ++ a :: l2).find? p = some a := by
  induction l1 with
  | nil => simp [ha]
  | cons x xs ih =>
    have hx : ¬ p x = true := by simp [h1 x (by simp)]
    rw [List.cons_append, List.find?_cons_of_neg _ hx]
    exact ih (fun y hy => h1 y (by simp [hy]))

theorem eraseP_first_of_split {α : Type} (p : α → Bool) (l1 l2 : List α) (a : α)
    (h1 : ∀ x ∈ l1, p x = false) (ha : p a = true) :
    (l1 ++ a :: l2).eraseP p = l1 ++ l2 := by
  induction l1 with
  | nil => simp [List.eraseP_cons_of_pos ha]
  | cons x xs ih =>
    have hx : ¬ p x = true := by simp [h1 x (by simp)]
    rw [List.cons_append, List.eraseP_cons_of_neg hx, ih (fun y hy => h1 y (by simp [hy])),
      List.cons_append]

/-- Claim C1: whenever `get_upcoming_birthdays` returns normally, its
output is exactly the in-order `filterMap` of the spec's per-record
algorithm `specUpcoming` over the directory's entries: a record with a
birthday set is included iff `0 ≤ daysUntil ≤ days`, where `thisYearDate`
is the birthday's day/month projected onto today's year (re-projected onto
`today.year + 1` when `thisYearDate < today`) and
`daysUntil = thisYearDate - today` in days; each produced entry carries
the record's name and the weekend-adjusted congratulation date formatted
`DD.MM.YYYY`, and entries appear in the directory's insertion order
(`book.data` models the insertion-ordered dict). -/
theorem get_upcoming_birthdays_correct (book : AddressBook) (today : PyDate)
    (days : Int) (entries : List UpEntry)
    (h : book.get_upcoming_birthdays today days = .ok entries) :
    entries = book.data.filterMap (fun kv => specUpcoming today days kv.2) :=
  upcomingLoop_ok today days book.data entries h

/-- Witness for C1 at a concrete directory: one record with birthday
`15.06.1990`, today `13.06.2024`, window 7. -/
theorem get_upcoming_birthdays_correct_witness :
    [({ name := "John", congratulation_date := "17.06.2024" } : UpEntry)] =
      List.filterMap (fun kv => specUpcoming ⟨2024, 6, 13⟩ 7 kv.2)
        [("John", ({ name := "John", phones := [],
                     birthday := some ⟨"15.06.1990"⟩ } : Record))] :=
  get_upcoming_birthdays_correct
    ⟨[("John", { name := "John", phones := [], birthday := some ⟨"15.06.1990"⟩ })]⟩
    ⟨2024, 6, 13⟩ 7 [{ name := "John", congratulation_date := "17.06.2024" }] rfl

/-- Claim C2: `adjust_for_weekend` returns the Monday two days later on a
Saturday (weekday 5), the Monday one day later on a Sunday (weekday 6),
and the date unchanged on Monday..Friday; and in the concrete scenario
birthday `15.06.1990` with today `13.06.2024`, the report's congratulation
date is `17.06.2024`. -/
theorem adjust_for_weekend_weekend_shift :
    (∀ d : PyDate, validYMD d →
      (pyWeekday d = 5 →
        adjust_for_weekend d = addDays d 2 ∧ pyWeekday (adjust_for_weekend d) = 0) ∧
      (pyWeekday d = 6 →
        adjust_for_weekend d = addDays d 1 ∧ pyWeekday (adjust_for_weekend d) = 0) ∧
      (pyWeekday d ≤ 4 → adjust_for_weekend d = d)) ∧
    AddressBook.get_upcoming_birthdays
      ⟨[("John", { name := "John", phones := [], birthday := some ⟨"15.06.1990"⟩ })]⟩
      ⟨2024, 6, 13⟩ 7 = .ok [{ name := "John", congratulation_date := "17.06.2024" }] :=
  ⟨fun d hv => adjust_for_weekend_cases d hv, rfl⟩

/-- Witness for C2 at the Saturday 2024-06-15. -/
theorem adjust_for_weekend_weekend_shift_witness :
    adjust_for_weekend ⟨2024, 6, 15⟩ = addDays ⟨2024, 6, 15⟩ 2 ∧
    pyWeekday (adjust_for_weekend ⟨2024, 6, 15⟩) = 0 :=
  ((adjust_for_weekend_weekend_shift.1 ⟨2024, 6, 15⟩ (by decide)).1) (by decide)

/-- Claim C3: `Phone.__init__` raises `ValueError` whenever the string's
length is not 10 or some character is not a decimal digit, and succeeds on
every string of exactly 10 decimal digits, storing exactly the input
string (round-trip). -/
theorem phone_parse_correct (s : String) :
    ((s.length ≠ 10 ∨ ∃ c ∈ s.data, c.isDigit = false) →
      Phone.init s = .error "Phone must be 10 digits.") ∧
    (s.length = 10 → (∀ c ∈ s.data, c.isDigit = true) →
      Phone.init s = .ok ⟨s⟩) := by
  constructor
  · intro h
    rw [Phone.init, if_neg]
    rintro ⟨hdig, hlen⟩
    rcases h with h | ⟨c, hc, hcd⟩
    · exact h hlen
    · simp only [pyIsdigit, Bool.and_eq_true, List.all_eq_true] at hdig
      have := hdig.2 c hc
      rw [hcd] at this
      simp at this
  · intro hlen hdig
    rw [Phone.init, if_pos]
    refine ⟨?_, hlen⟩
    simp only [pyIsdigit, Bool.and_eq_true, List.all_eq_true]
    refine ⟨?_, hdig⟩
    rw [string_length_data] at hlen
    simp only [Bool.not_eq_true']
    cases hsd : s.data with
    | nil => rw [hsd] at hlen; simp at hlen
    | cons a l => simp

/-- Witness for C3 on a valid 10-digit string, a short string, and a
10-character string with a non-digit. -/
theorem phone_parse_correct_witness :
    Phone.init "0123456789" = .ok ⟨"0123456789"⟩ ∧
    Phone.init "123" = .error "Phone must be 10 digits." ∧
    Phone.init "12345678x9" = .error "Phone must be 10 digits." :=
  ⟨(phone_parse_correct "0123456789").2 rfl (by decide),
   (phone_parse_correct "123").1 (Or.inl (by decide)),
   (phone_parse_correct "12345678x9").1 (Or.inr ⟨'x', by decide, by decide⟩)⟩

/-- Counterexample to claim C4 as stated: `"1.1.2024"` does not match the
two-digit-day/two-digit-month pattern `DD.MM.YYYY`, so the claim says
`Birthday.parse` must fail on it — but CPython `strptime`'s `%d` and `%m`
also accept single digits, so `Birthday.__init__` accepts it. -/
theorem birthday_accepts_unpadded :
    Birthday.init "1.1.2024" = .ok ⟨"1.1.2024"⟩ := rfl

/-- Claim C4 (amended): `Birthday.__init__` succeeds exactly on strings
of the form day.month.year where the day is 1-2 digits valuing 1..31, the
month is 1-2 digits valuing 1..12, the year is exactly 4 digits, and the
triple denotes a real calendar date (month/leap-year day bounds, year at
least 1) — zero-padding of day and month is optional, which is the only
deviation from the claim's strict `DD.MM.YYYY` pattern; impossible dates
such as `31.02.2024` are still rejected, and accepted strings round-trip:
the stored value is the original string. -/
theorem birthday_parse_amended (s : String) :
    (specBirthdayAccepts s → Birthday.init s = .ok ⟨s⟩) ∧
    (¬ specBirthdayAccepts s →
      Birthday.init s = .error "Invalid date format. Use DD.MM.YYYY.") := by
  constructor
  · intro hacc
    obtain ⟨d, hd⟩ := (strptimeDmY_some_iff s).mpr hacc
    rw [Birthday.init, hd]
  · intro hrej
    cases hs : strptimeDmY s with
    | some d => exact absurd ((strptimeDmY_some_iff s).mp ⟨d, hs⟩) hrej
    | none => rw [Birthday.init, hs]

/-- Witness for the amended C4 at the valid date `31.12.2001`. -/
theorem birthday_parse_amended_witness :
    Birthday.init "31.12.2001" = .ok ⟨"31.12.2001"⟩ :=
  (birthday_parse_amended "31.12.2001").1
    ⟨['3', '1'], ['1', '2'], ['2', '0', '0', '1'], rfl,
      by decide, by decide, by decide, by decide, by decide, by decide,
      by decide, by decide, by decide, by decide, by decide, by decide,
      by decide, by decide⟩

/-- Claim C5: a record whose (valid) birthday is 29 February of a leap
year makes `get_upcoming_birthdays` raise an unhandled `ValueError`: with
today `01.01.2023` the projection `date.replace(year=2023)` raises, and
with today `01.03.2024` the first projection succeeds but the
re-projection onto 2025 raises — so the query is not total over records
carrying valid birthdays. -/
theorem get_upcoming_birthdays_feb29_raises :
    Birthday.init "29.02.2020" = .ok ⟨"29.02.2020"⟩ ∧
    AddressBook.get_upcoming_birthdays
      ⟨[("Leap", { name := "Leap", phones := [], birthday := some ⟨"29.02.2020"⟩ })]⟩
      ⟨2023, 1, 1⟩ 7 = .error "day is out of range for month" ∧
    AddressBook.get_upcoming_birthdays
      ⟨[("Leap", { name := "Leap", phones := [], birthday := some ⟨"29.02.2020"⟩ })]⟩
      ⟨2024, 3, 1⟩ 7 = .error "day is out of range for month" :=
  ⟨rfl, rfl, rfl⟩

/-- Claim C6: `edit_phone(old, new)` on a record none of whose phones
equals `old` raises `ValueError` (`NotFoundError`) and returns with the
record exactly as it was (the returned state is the unchanged record). -/
theorem edit_phone_not_found (r : Record) (old_number new_number : String)
    (h : ∀ p ∈ r.phones, p.value ≠ old_number) :
    r.edit_phone old_number new_number =
      (r, some ("Phone number " ++ old_number ++ " not found.")) := by
  have hf : r.find_phone old_number = none := by
    rw [Record.find_phone, List.find?_eq_none]
    intro p hp
    simp [h p hp]
  simp [Record.edit_phone, hf]

/-- Witness for C6 on a fresh record with no phones. -/
theorem edit_phone_not_found_witness :
    (Record.init "A").edit_phone "0123456789" "1112223334" =
      (Record.init "A", some ("Phone number " ++ "0123456789" ++ " not found.")) :=
  edit_phone_not_found (Record.init "A") "0123456789" "1112223334"
    (by simp [Record.init])

/-- Claim C7: whenever a core record operation (`add_phone`,
`remove_phone`, `edit_phone`, `add_birthday`) raises, the record state at
the moment the exception propagates equals the state before the call — no
partial mutation. (`add_record` and `delete` are total functions in the
source and raise no core error, and `get_upcoming_birthdays` only reads
the directory, so the claim holds for them by construction. Even
`edit_phone`'s allowed transient state is never observable on failure.) -/
theorem core_errors_preserve_record (r : Record) (s old_number new_number bday : String) :
    ((r.add_phone s).2.isSome = true → (r.add_phone s).1 = r) ∧
    ((r.remove_phone s).2.isSome = true → (r.remove_phone s).1 = r) ∧
    ((r.edit_phone old_number new_number).2.isSome = true →
      (r.edit_phone old_number new_number).1 = r) ∧
    ((r.add_birthday bday).2.isSome = true → (r.add_birthday bday).1 = r) := by
  refine ⟨?_, ?_, ?_, ?_⟩
  · unfold Record.add_phone
    cases Phone.init s <;> simp
  · unfold Record.remove_phone
    cases r.find_phone s <;> simp
  · unfold Record.edit_phone
    cases hf : r.find_phone old_number with
    | none => simp
    | some p =>
      cases hip : Phone.init new_number with
      | error e => simp [Record.add_phone, hip]
      | ok q =>
        have hfind : Record.find_phone { r with phones := r.phones ++ [q] } old_number =
            some p := by
          rw [Record.find_phone] at hf ⊢
          rw [List.find?_append, hf]
          rfl
        simp [Record.add_phone, hip, Record.remove_phone, hfind]
  · unfold Record.add_birthday
    cases Birthday.init bday <;> simp

/-- Witness for C7: a failing `add_phone` (bad number) and a failing
`add_birthday` (impossible date) leave a fresh record unchanged. -/
theorem core_errors_preserve_record_witness :
    ((Record.init "A").add_phone "123").1 = Record.init "A" ∧
    ((Record.init "A").add_birthday "31.02.2024").1 = Record.init "A" :=
  ⟨(core_errors_preserve_record (Record.init "A") "123" "x" "y" "z").1 rfl,
   (core_errors_preserve_record (Record.init "A") "s" "x" "y" "31.02.2024").2.2.2 rfl⟩

/-- Claim C9: the directory keeps at most one record per name — the
key list stays duplicate-free under `add_record` and `delete` — and
calling `add_record` twice from empty with records sharing a name leaves
exactly the single entry holding the second record, with the first
record's phones not merged in. -/
theorem add_record_overwrites (book : AddressBook) (r1 r2 : Record) (nm : String) :
    ((book.data.map Prod.fst).Nodup →
      ((book.add_record r1).data.map Prod.fst).Nodup ∧
      ((book.delete nm).data.map Prod.fst).Nodup) ∧
    (r1.name = r2.name →
      ((AddressBook.mk []).add_record r1).add_record r2 =
        ⟨[(r2.name, r2)]⟩) := by
  constructor
  · intro hnd
    constructor
    · unfold AddressBook.add_record dictSet
      split
      · have hf : (Prod.fst ∘ fun kv : String × Record =>
            if kv.1 == r1.name then (r1.name, r1) else kv) = Prod.fst := by
          funext kv
          by_cases hk : (kv.1 == r1.name) = true
          · simp only [Function.comp_apply, if_pos hk]
            exact (beq_iff_eq.mp hk).symm
          · simp only [Function.comp_apply, if_neg hk]
        rw [List.map_map, hf]
        exact hnd
      · next hany =>
        simp only [List.map_append, List.map_cons, List.map_nil]
        rw [List.nodup_append]
        refine ⟨hnd, by simp, ?_⟩
        intro a ha hb
        simp only [List.mem_singleton] at hb
        subst hb
        simp only [List.mem_map] at ha
        obtain ⟨kv, hkv, hfst⟩ := ha
        exact hany (List.any_eq_true.mpr ⟨kv, hkv, by simp [hfst]⟩)
    · unfold AddressBook.delete
      split
      · exact List.Nodup.sublist ((List.filter_sublist _).map _) hnd
      · exact hnd
  · intro hname
    have h1 : (AddressBook.mk []).add_record r1 = ⟨[(r1.name, r1)]⟩ := by
      simp [AddressBook.add_record, dictSet]
    rw [h1]
    simp [AddressBook.add_record, dictSet, hname]

/-- Witness for C9: two same-named records added from empty; the stored
record is the second one and the first one's phone is gone. -/
theorem add_record_overwrites_witness :
    ((AddressBook.mk []).add_record
        { name := "A", phones := [⟨"1112223334"⟩], birthday := none }).add_record
      { name := "A", phones := [], birthday := none } =
      ⟨[("A", { name := "A", phones := [], birthday := none })]⟩ :=
  (add_record_overwrites (AddressBook.mk [])
    ⟨"A", [⟨"1112223334"⟩], none⟩ ⟨"A", [], none⟩ "x").2 rfl

/-- Claim C10: `remove_phone(number)` removes exactly the first phone
whose value equals `number`, leaving every other phone (including later
duplicates of `number`) in order; when no phone matches it raises
`ValueError` and the phone sequence is unchanged. -/
theorem remove_phone_correct (r : Record) (pn : String) :
    (∀ l1 p l2, r.phones = l1 ++ p :: l2 → (∀ q ∈ l1, q.value ≠ pn) → p.value = pn →
      r.remove_phone pn = ({ r with phones := l1 ++ l2 }, none)) ∧
    ((∀ q ∈ r.phones, q.value ≠ pn) →
      r.remove_phone pn = (r, some "list.remove(x): x not in list")) := by
  constructor
  · intro l1 p l2 hsplit hl1 hp
    have hfind : r.find_phone pn = some p := by
      rw [Record.find_phone, hsplit]
      exact find?_first_of_split _ l1 l2 p
        (fun x hx => by simp [hl1 x hx]) (by simp [hp])
    have herase : r.phones.eraseP (fun q => q.value == pn) = l1 ++ l2 := by
      rw [hsplit]
      exact eraseP_first_of_split _ l1 l2 p
        (fun x hx => by simp [hl1 x hx]) (by simp [hp])
    simp [Record.remove_phone, hfind, herase]
  · intro h
    have hfind : r.find_phone pn = none := by
      rw [Record.find_phone, List.find?_eq_none]
      intro q hq
      simp [h q hq]
    simp [Record.remove_phone, hfind]

/-- Witness for C10: removal keeps a later duplicate; removal of an
absent number fails with the record unchanged. -/
theorem remove_phone_correct_witness :
    (Record.mk "A" [⟨"1112223334"⟩, ⟨"0123456789"⟩, ⟨"0123456789"⟩] none).remove_phone
        "0123456789" =
      (Record.mk "A" [⟨"1112223334"⟩, ⟨"0123456789"⟩] none, none) ∧
    (Record.mk "A" [⟨"1112223334"⟩] none).remove_phone "0123456789" =
      (Record.mk "A" [⟨"1112223334"⟩] none, some "list.remove(x): x not in list") :=
  ⟨(remove_phone_correct _ "0123456789").1 [⟨"1112223334"⟩] ⟨"0123456789"⟩
      [⟨"0123456789"⟩] rfl (by decide) rfl,
   (remove_phone_correct _ "0123456789").2 (by decide)⟩

/-- Witness for C8: from Thursday 2024-06-13 the next Monday is 4 days
ahead, and from Saturday 2024-06-15 the next Saturday is a full week
ahead. -/
theorem find_next_weekday_spec_witness :
    (pyWeekday (find_next_weekday ⟨2024, 6, 13⟩ 0) : Int) = 0 ∧
    toOrdinal (find_next_weekday ⟨2024, 6, 15⟩ 5) = toOrdinal ⟨2024, 6, 15⟩ + 7 :=
  ⟨(find_next_weekday_spec ⟨2024, 6, 13⟩ 0 (by decide) (by decide) (by decide)).2.2.2.1,
   (find_next_weekday_spec ⟨2024, 6, 15⟩ 5 (by decide) (by decide)
      (by decide)).2.2.2.2.2 (by decide)⟩
